import Mathlib

/-!
Verification of the heading-extraction and position-resolution core of the
word_add_in repository (a Microsoft Word task-pane add-in).

Two source files are embedded:

* `src/src/taskpane/taskpane.js` (namespace `Taskpane`): the content-control /
  paragraph-scan table-of-contents extraction (`getTableOfContents`), the level
  helpers (`getHeadingLevel`, `extractLevelFromControl`), the style-targeted
  heading search (`findHeadingsByStyle`) and the boundary scan
  (`findSectionFromPosition`).
* `src/unnamed/part_000` (namespace `Part0`): the paragraph-based extraction
  (`getTableOfContents` with `isHeading` and the two-argument
  `getHeadingLevel`) and the cursor resolver (`findCurrentSection`).

Host interaction (Office.js batching, DOM rendering, network calls) is outside
the embedded core: the document snapshot arrives as plain lists of records, and
JavaScript exceptions cannot occur in the embedded fragment (all operations on
the materialized records are total), so the Lean functions are total functions
of the snapshot.

JS strings are modelled as `String`; the string operations used by the source
(`trim`, `toLowerCase`, `includes`, the regex literals `/Heading(\d+)/`,
`/(\d+)/` and `/heading\s*(\d+)|h(\d+)|level\s*(\d+)/`, `parseInt` on a
captured digit group) are given executable embeddings on `List Char` below.
The JS object field `end` is rendered as `endPos` (`end` is a Lean keyword).
-/

namespace WordAddIn

/-- Value of a (non-empty) digit run, as computed by JS `parseInt` on a digit
group. -/
def digitsVal (ds : List Char) : Nat :=
  ds.foldl (fun n c => n * 10 + (c.toNat - 48)) 0

/-- JS `s.includes(pat)`: `pat` occurs as a contiguous substring of `s`. -/
def listIncludes (s pat : List Char) : Bool :=
  match s with
  | [] => pat.isEmpty
  | _ :: rest => pat.isPrefixOf s || listIncludes rest pat

/-- JS `s.includes(pat)` on `String`. -/
def strIncludes (s pat : String) : Bool :=
  listIncludes s.toList pat.toList

/-- JS `s.trim()`: drop leading and trailing whitespace. -/
def trimChars (cs : List Char) : List Char :=
  ((cs.dropWhile Char.isWhitespace).reverse.dropWhile Char.isWhitespace).reverse

/-- JS `s.trim()` on `String`. -/
def strTrim (s : String) : String := String.mk (trimChars s.toList)

/-- JS `s.toLowerCase()` (ASCII case folding, which is all the source needs). -/
def strLower (s : String) : String := String.mk (s.toList.map Char.toLower)

/-- The regex `/Heading(\d+)/` applied by JS `match`: leftmost occurrence of
the literal `Heading` immediately followed by at least one digit; the value of
the (greedy, maximal) captured digit group is returned. -/
def headingDigits : List Char → Option Nat
  | [] => none
  | c :: rest =>
    if ("Heading".toList).isPrefixOf (c :: rest) then
      let ds := ((c :: rest).drop 7).takeWhile Char.isDigit
      if ds.isEmpty then headingDigits rest else some (digitsVal ds)
    else headingDigits rest

/-- The regex `/(\d+)/` applied by JS `match`: the leftmost maximal digit run
anywhere in the string, if any. -/
def firstDigitRun : List Char → Option Nat
  | [] => none
  | c :: rest =>
    if c.isDigit then some (digitsVal ((c :: rest).takeWhile Char.isDigit))
    else firstDigitRun rest

/-- Digits captured after a required literal token and optional `\s*`, or
`none` if no digit follows (regex `\s*(\d+)` after a matched token). -/
def capAfterWs (cs : List Char) : Option Nat :=
  let ds := (cs.dropWhile Char.isWhitespace).takeWhile Char.isDigit
  if ds.isEmpty then none else some (digitsVal ds)

/-- Digits captured immediately after a matched token (regex `(\d+)`). -/
def capHere (cs : List Char) : Option Nat :=
  let ds := cs.takeWhile Char.isDigit
  if ds.isEmpty then none else some (digitsVal ds)

/-- One attempt of `/heading\s*(\d+)|h(\d+)|level\s*(\d+)/` anchored at the
head of `cs`, trying the three alternatives in order. -/
def levelPatAt (cs : List Char) : Option Nat :=
  match (if ("heading".toList).isPrefixOf cs then capAfterWs (cs.drop 7) else none) with
  | some n => some n
  | none =>
    match (if ("h".toList).isPrefixOf cs then capHere (cs.drop 1) else none) with
    | some n => some n
    | none => if ("level".toList).isPrefixOf cs then capAfterWs (cs.drop 5) else none

/-- The regex `/heading\s*(\d+)|h(\d+)|level\s*(\d+)/` applied by JS `match`:
leftmost starting position wins, alternative order breaks ties at a position;
the captured digit group of the successful alternative is returned. -/
def levelPatScan : List Char → Option Nat
  | [] => none
  | c :: rest =>
    match levelPatAt (c :: rest) with
    | some n => some n
    | none => levelPatScan rest

end WordAddIn

namespace Taskpane

open WordAddIn

/-- A content-control record of the snapshot, with the `text, title, tag`
properties loaded by `getTableOfContents`; JS `control.title || ""` and
`control.tag || ""` make absent fields the empty string. -/
structure ContentControl where
  text : String
  title : String
  tag : String
deriving DecidableEq

/-- A paragraph record of the snapshot with the `text, styleBuiltIn`
properties loaded by the paragraph fallback of `getTableOfContents`; an absent
style is the empty string (the JS code maps a falsy `styleBuiltIn` to `""`). -/
structure Paragraph where
  text : String
  styleBuiltIn : String
deriving DecidableEq

/-- An entry pushed onto `tocItems` by `getTableOfContents` in taskpane.js. -/
structure TocItem where
  text : String
  level : Nat
  style : String
  index : Nat
  type : String
deriving DecidableEq

/-- taskpane.js `getHeadingLevel(style)` (the one-argument helper used by the
paragraph fallback): `Title` gives 0, a style containing `Heading` gives the
first digit run found by `/(\d+)/` (default 1), anything else gives 1. -/
def getHeadingLevel (style : String) : Nat :=
  if style = "Title" then 0
  else if strIncludes style "Heading" then
    match firstDigitRun style.toList with
    | some n => n
    | none => 1
  else 1

/-- taskpane.js `extractLevelFromControl(title, tag)`: lowercase
`title + " " + tag`; if it contains `title` the level is 0; otherwise scan for
`/heading\s*(\d+)|h(\d+)|level\s*(\d+)/` and keep the captured number only
when it is strictly between 0 and 10, else default to 1. -/
def extractLevelFromControl (title tag : String) : Nat :=
  let text := strLower (title ++ " " ++ tag)
  if strIncludes text "title" then 0
  else
    match levelPatScan text.toList with
    | some n => if 0 < n ∧ n < 10 then n else 1
    | none => 1

/-- The condition under which `getTableOfContents` treats a content control as
a heading: non-empty trimmed text, and lowercased `title` contains `heading`,
or lowercased `tag` contains `heading`, or lowercased `title` contains
`title`. -/
def ccHeadingCond (c : ContentControl) : Bool :=
  (strTrim c.text != "") &&
    (strIncludes (strLower c.title) "heading" || strIncludes (strLower c.tag) "heading" ||
      strIncludes (strLower c.title) "title")

/-- The item pushed for a qualifying content control, with
`index: tocItems.length` captured as `n`; `style` is JS
`title || tag || "Content Control"`. -/
def mkCcItem (c : ContentControl) (n : Nat) : TocItem :=
  { text := strTrim c.text
    level := extractLevelFromControl c.title c.tag
    style := if c.title != "" then c.title else if c.tag != "" then c.tag else "Content Control"
    index := n
    type := "contentControl" }

/-- The content-control loop of `getTableOfContents`: each qualifying control
is appended with `index` equal to the running length of `tocItems`. -/
def ccItemsAux : List ContentControl → Nat → List TocItem
  | [], _ => []
  | c :: rest, n =>
    if ccHeadingCond c then mkCcItem c n :: ccItemsAux rest (n + 1)
    else ccItemsAux rest n

/-- The condition of the paragraph fallback: non-empty trimmed text, trimmed
length below 200, and style containing `Heading` or equal to `Title`. -/
def paraHeadingCond (p : Paragraph) : Bool :=
  (strTrim p.text != "") && ((strTrim p.text).length < 200) &&
    (strIncludes p.styleBuiltIn "Heading" || p.styleBuiltIn == "Title")

/-- The item pushed for a qualifying paragraph. -/
def mkParaItem (p : Paragraph) (n : Nat) : TocItem :=
  { text := strTrim p.text
    level := getHeadingLevel p.styleBuiltIn
    style := p.styleBuiltIn
    index := n
    type := "paragraph" }

/-- The paragraph loop of `getTableOfContents`. -/
def paraItemsAux : List Paragraph → Nat → List TocItem
  | [], _ => []
  | p :: rest, n =>
    if paraHeadingCond p then mkParaItem p n :: paraItemsAux rest (n + 1)
    else paraItemsAux rest n

/-- taskpane.js `getTableOfContents`: build `tocItems` from the content
controls; only when that yields zero entries, scan the paragraphs. -/
def getTableOfContents (controls : List ContentControl) (paragraphs : List Paragraph) :
    List TocItem :=
  let tocItems := ccItemsAux controls 0
  if tocItems.isEmpty then paraItemsAux paragraphs 0 else tocItems

/-- A paragraph record with range data, as loaded by `findHeadingsByStyle`. -/
structure StylePara where
  text : String
  styleBuiltIn : String
  rangeStart : Int
  rangeEnd : Int
deriving DecidableEq

/-- A section heading produced by `findHeadingsByStyle` and consumed by
`findSectionFromPosition`. -/
structure Heading where
  title : String
  start : Int
  endPos : Int
  style : String
deriving DecidableEq

/-- The style filter of `findHeadingsByStyle`. -/
def styleMatches (headingStyle style : String) : Bool :=
  style == headingStyle ||
    (headingStyle == "Heading 1" && strIncludes style "Heading1") ||
    (headingStyle == "Heading 2" && strIncludes style "Heading2")

/-- The collection loop of `findHeadingsByStyle`: the first
`min(200, paragraphs.length)` paragraphs are scanned, and each style match
with non-empty trimmed text is kept in traversal order. -/
def collectHeadings (headingStyle : String) (paras : List StylePara) : List Heading :=
  ((paras.take 200).filter
      (fun p => styleMatches headingStyle p.styleBuiltIn && (strTrim p.text != ""))).map
    (fun p => { title := strTrim p.text, start := p.rangeStart, endPos := p.rangeEnd,
                style := p.styleBuiltIn })

/-- Stable insertion by ascending `start`, modelling one step of the JS stable
`headings.sort((a, b) => a.start - b.start)`. -/
def insertByStart (h : Heading) : List Heading → List Heading
  | [] => [h]
  | x :: xs => if h.start ≤ x.start then h :: x :: xs else x :: insertByStart h xs

/-- Stable sort by ascending `start` (JS `Array.prototype.sort` is stable). -/
def sortByStart : List Heading → List Heading
  | [] => []
  | x :: xs => insertByStart x (sortByStart xs)

/-- taskpane.js `findHeadingsByStyle`: collect matching paragraphs, then sort
by position. -/
def findHeadingsByStyle (headingStyle : String) (paras : List StylePara) : List Heading :=
  sortByStart (collectHeadings headingStyle paras)

/-- taskpane.js `findSectionFromPosition(cursorPosition, sectionHeadings)`:
linear scan; the first heading `h` with `cursorPosition >= h.start` and
(`h` last, or `cursorPosition < next.start`) is returned, else `null`. -/
def findSectionFromPosition (pos : Int) : List Heading → Option Heading
  | [] => none
  | h :: rest =>
    if h.start ≤ pos then
      match rest with
      | [] => some h
      | next :: _ => if pos < next.start then some h else findSectionFromPosition pos rest
    else findSectionFromPosition pos rest

end Taskpane

namespace Part0

open WordAddIn

/-- A paragraph record of the snapshot in part_000, with the
`text, styleBuiltIn, outlineLevel` properties and the `start, end` of its
range; `styleBuiltIn` is `none` when the property is absent (JS falsy check),
`outlineLevel` is `none` when `undefined`. -/
structure ParaRecord where
  text : String
  styleBuiltIn : Option String
  outlineLevel : Option Int
  rangeStart : Int
  rangeEnd : Int
deriving DecidableEq

/-- part_000 `isHeading(paragraph)`: a truthy style containing `Heading` or
equal to `Title`, or an outline level that is defined and below 9. -/
def isHeading (p : ParaRecord) : Bool :=
  (match p.styleBuiltIn with
   | some s => (s != "") && (strIncludes s "Heading" || s == "Title")
   | none => false) ||
  (match p.outlineLevel with
   | some o => decide (o < 9)
   | none => false)

/-- The `if (styleBuiltIn) { ... }` block of part_000
`getHeadingLevel(styleBuiltIn, outlineLevel)`: a truthy style equal to
`Title` returns 0; one containing `Heading` with a `/Heading(\d+)/` match
returns the captured digits; in every other case the block falls through
(`none`). -/
def styleLevel (styleBuiltIn : Option String) : Option Int :=
  match styleBuiltIn with
  | some style =>
    if style = "" then none
    else if style = "Title" then some 0
    else if strIncludes style "Heading" then
      match headingDigits style.toList with
      | some n => some (n : Int)
      | none => none
    else none
  | none => none

/-- The trailing statements of part_000 `getHeadingLevel`: a defined outline
level below 9 is returned, otherwise the default 1. -/
def outlineFallback (outlineLevel : Option Int) : Int :=
  match outlineLevel with
  | some o => if o < 9 then o else 1
  | none => 1

/-- part_000 `getHeadingLevel(styleBuiltIn, outlineLevel)`: the style block,
falling through to the outline-level fallback. -/
def getHeadingLevel (styleBuiltIn : Option String) (outlineLevel : Option Int) : Int :=
  match styleLevel styleBuiltIn with
  | some n => n
  | none => outlineFallback outlineLevel

/-- An entry of `processedTocItems` (the cached `currentTocItems`). -/
structure TocEntry where
  text : String
  level : Int
  style : String
  start : Int
  endPos : Int
  index : Nat
deriving DecidableEq

/-- The first loop of part_000 `getTableOfContents`: keep the paragraphs that
pass `isHeading` and have non-empty trimmed text, in traversal order. -/
def selected (paras : List ParaRecord) : List ParaRecord :=
  paras.filter (fun p => isHeading p && (strTrim p.text != ""))

/-- The entry built for a selected paragraph in the second loop, with the
re-assigned `index: i`; `style` is JS `styleBuiltIn || "Unknown"`. -/
def mkEntry (p : ParaRecord) (n : Nat) : TocEntry :=
  { text := strTrim p.text
    level := getHeadingLevel p.styleBuiltIn p.outlineLevel
    style := match p.styleBuiltIn with
             | some s => if s != "" then s else "Unknown"
             | none => "Unknown"
    start := p.rangeStart
    endPos := p.rangeEnd
    index := n }

/-- The second loop of part_000 `getTableOfContents`: every selected record
becomes an entry whose `index` is its position in the produced sequence. -/
def reindex : List ParaRecord → Nat → List TocEntry
  | [], _ => []
  | p :: rest, n => mkEntry p n :: reindex rest (n + 1)

/-- part_000 `getTableOfContents` (the pure part: from materialized paragraph
records to `processedTocItems`). -/
def getTableOfContents (paras : List ParaRecord) : List TocEntry :=
  reindex (selected paras) 0

/-- The result of part_000 `findCurrentSection`: the two sentinel objects
(`{text: "No TOC available", level: 0, index: -1}` and
`{text: "Before first heading", level: 0, index: -1}`) and the copied entry
(`{text, level, style, index: i, start, end}`). -/
inductive SectionResult where
  | noToc
  | beforeFirst
  | found (text : String) (level : Int) (style : String) (index : Nat)
      (start : Int) (endPos : Int)
deriving DecidableEq

/-- The scan loop of `findCurrentSection`, carrying the loop counter `i`: at
each entry, if `currentPosition >= item.start` and (there is no next item, or
`currentPosition < nextItem.start`), the item is taken with the loop index. -/
def scanToc (pos : Int) : List TocEntry → Nat → Option (Nat × TocEntry)
  | [], _ => none
  | item :: rest, i =>
    if item.start ≤ pos then
      match rest with
      | [] => some (i, item)
      | next :: _ => if pos < next.start then some (i, item) else scanToc pos rest (i + 1)
    else scanToc pos rest (i + 1)

/-- part_000 `findCurrentSection(currentPosition)` over an explicit cache
(the `currentTocItems.length === 0` guard, then the scan). -/
def findCurrentSection (items : List TocEntry) (pos : Int) : SectionResult :=
  if items.length = 0 then .noToc
  else
    match scanToc pos items 0 with
    | some (i, item) => .found item.text item.level item.style i item.start item.endPos
    | none => .beforeFirst

end Part0

/-! ### Characterization of the boundary scans -/

namespace Part0

/-- Soundness of the scan loop: a returned pair is the entry at the returned
index (relative to the starting counter), its start is at or before the
cursor, and any successor entry starts strictly after the cursor. -/
lemma scanToc_sound (pos : Int) :
    ∀ (items : List TocEntry) (k r : Nat) (e : TocEntry),
      scanToc pos items k = some (r, e) →
      ∃ j, r = k + j ∧ items[j]? = some e ∧ e.start ≤ pos ∧
        ∀ e', items[j + 1]? = some e' → pos < e'.start := by
  intro items
  induction items with
  | nil => intro k r e h; simp [scanToc] at h
  | cons item rest ih =>
    intro k r e h
    by_cases h1 : item.start ≤ pos
    · cases rest with
      | nil =>
        simp [scanToc, h1] at h
        obtain ⟨hr, he⟩ := h
        subst hr; subst he
        exact ⟨0, by omega, by simp, h1, by intro e' he'; simp at he'⟩
      | cons next rest2 =>
        by_cases h2 : pos < next.start
        · simp [scanToc, h1, h2] at h
          obtain ⟨hr, he⟩ := h
          subst hr; subst he
          refine ⟨0, by omega, by simp, h1, ?_⟩
          intro e' he'
          simp at he'
          subst he'
          exact h2
        · have h' : scanToc pos (next :: rest2) (k + 1) = some (r, e) := by
            simpa [scanToc, h1, h2] using h
          obtain ⟨j, hj, hget, hle, hnext⟩ := ih (k + 1) r e h'
          refine ⟨j + 1, by omega, by simpa using hget, hle, ?_⟩
          intro e' he'
          exact hnext e' (by simpa using he')
    · have h' : scanToc pos rest (k + 1) = some (r, e) := by
        simpa [scanToc, h1] using h
      obtain ⟨j, hj, hget, hle, hnext⟩ := ih (k + 1) r e h'
      refine ⟨j + 1, by omega, by simpa using hget, hle, ?_⟩
      intro e' he'
      exact hnext e' (by simpa using he')

/-- Completeness of the scan loop: if position `j` satisfies the acceptance
test and every earlier position has a successor entry that also starts at or
before the cursor (so the test cannot fire earlier), the scan stops exactly at
`j`. -/
lemma scanToc_first (pos : Int) :
    ∀ (items : List TocEntry) (j : Nat) (e : TocEntry) (k : Nat),
      items[j]? = some e → e.start ≤ pos →
      (∀ e', items[j + 1]? = some e' → pos < e'.start) →
      (∀ j' e'', j' < j → items[j' + 1]? = some e'' → e''.start ≤ pos) →
      scanToc pos items k = some (k + j, e) := by
  intro items
  induction items with
  | nil => intro j e k hget; simp at hget
  | cons item rest ih =>
    intro j e k hget hle hnext hbefore
    cases j with
    | zero =>
      simp at hget
      subst hget
      cases rest with
      | nil => simp [scanToc, hle]
      | cons next rest2 =>
        have hn : pos < next.start := hnext next (by simp)
        simp [scanToc, hle, hn]
    | succ j' =>
      cases rest with
      | nil => simp at hget
      | cons next rest2 =>
        have hnn : next.start ≤ pos := hbefore 0 next (Nat.succ_pos j') (by simp)
        have hrec : scanToc pos (item :: next :: rest2) k
            = scanToc pos (next :: rest2) (k + 1) := by
          by_cases h1 : item.start ≤ pos
          · simp [scanToc, h1, not_lt.mpr hnn]
          · simp [scanToc, h1]
        have h2 := ih j' e (k + 1) (by simpa using hget) hle
          (by intro e' he'; exact hnext e' (by simpa using he'))
          (by intro j'' e'' hj'' he''
              exact hbefore (j'' + 1) e'' (by omega) (by simpa using he''))
        have harith : k + 1 + j' = k + (j' + 1) := by omega
        rw [hrec, h2, harith]

/-- If every entry starts strictly after the cursor, the scan finds nothing. -/
lemma scanToc_none (pos : Int) :
    ∀ (items : List TocEntry) (k : Nat),
      (∀ x ∈ items, pos < x.start) → scanToc pos items k = none := by
  intro items
  induction items with
  | nil => intro k _; simp [scanToc]
  | cons item rest ih =>
    intro k hall
    have h1 : ¬ item.start ≤ pos := not_le.mpr (hall item (by simp))
    simp only [scanToc]
    rw [if_neg h1]
    exact ih (k + 1) (fun x hx => hall x (by simp [hx]))

/-- From a weakly ascending cache, no position strictly before an accepted
position `j` can itself pass the acceptance test: its successor entry still
starts at or before the cursor. -/
lemma startLe_before_of_sorted (items : List TocEntry) (pos : Int) (j : Nat) (e : TocEntry)
    (hsorted : items.Pairwise (fun a b => a.start ≤ b.start))
    (hget : items[j]? = some e) (hle : e.start ≤ pos) :
    ∀ j' e'', j' < j → items[j' + 1]? = some e'' → e''.start ≤ pos := by
  intro j' e'' hj' hget''
  rcases List.getElem?_eq_some.mp hget with ⟨hjlen, hje⟩
  rcases List.getElem?_eq_some.mp hget'' with ⟨hj1len, hj1e⟩
  by_cases heq : j' + 1 = j
  · subst heq
    have : e'' = e := by
      rw [← hje, ← hj1e]
    rw [this]
    exact hle
  · have hlt : j' + 1 < j := by omega
    have hrel := (List.pairwise_iff_getElem.mp hsorted) (j' + 1) j hj1len hjlen hlt
    rw [hj1e, hje] at hrel
    exact le_trans hrel hle

end Part0

namespace Taskpane

/-- Soundness of `findSectionFromPosition`: a returned heading occurs in the
list at a position whose entry starts at or before the cursor and whose
successor, if any, starts strictly after it. -/
lemma findSectionFromPosition_sound (pos : Int) :
    ∀ (hs : List Heading) (h : Heading),
      findSectionFromPosition pos hs = some h →
      ∃ j, hs[j]? = some h ∧ h.start ≤ pos ∧
        ∀ h', hs[j + 1]? = some h' → pos < h'.start := by
  intro hs
  induction hs with
  | nil => intro h hh; simp [findSectionFromPosition] at hh
  | cons x rest ih =>
    intro h hh
    by_cases h1 : x.start ≤ pos
    · cases rest with
      | nil =>
        simp [findSectionFromPosition, h1] at hh
        subst hh
        exact ⟨0, by simp, h1, by intro h' hh'; simp at hh'⟩
      | cons next rest2 =>
        by_cases h2 : pos < next.start
        · simp [findSectionFromPosition, h1, h2] at hh
          subst hh
          refine ⟨0, by simp, h1, ?_⟩
          intro h' hh'
          simp at hh'
          subst hh'
          exact h2
        · have h' : findSectionFromPosition pos (next :: rest2) = some h := by
            simpa [findSectionFromPosition, h1, h2] using hh
          obtain ⟨j, hget, hle, hnext⟩ := ih h h'
          refine ⟨j + 1, by simpa using hget, hle, ?_⟩
          intro h'' hh''
          exact hnext h'' (by simpa using hh'')
    · have h' : findSectionFromPosition pos rest = some h := by
        simpa [findSectionFromPosition, h1] using hh
      obtain ⟨j, hget, hle, hnext⟩ := ih h h'
      refine ⟨j + 1, by simpa using hget, hle, ?_⟩
      intro h'' hh''
      exact hnext h'' (by simpa using hh'')

/-- Completeness of `findSectionFromPosition`, as for the part_000 scan. -/
lemma findSectionFromPosition_first (pos : Int) :
    ∀ (hs : List Heading) (j : Nat) (h : Heading),
      hs[j]? = some h → h.start ≤ pos →
      (∀ h', hs[j + 1]? = some h' → pos < h'.start) →
      (∀ j' h'', j' < j → hs[j' + 1]? = some h'' → h''.start ≤ pos) →
      findSectionFromPosition pos hs = some h := by
  intro hs
  induction hs with
  | nil => intro j h hget; simp at hget
  | cons x rest ih =>
    intro j h hget hle hnext hbefore
    cases j with
    | zero =>
      simp at hget
      subst hget
      cases rest with
      | nil => simp [findSectionFromPosition, hle]
      | cons next rest2 =>
        have hn : pos < next.start := hnext next (by simp)
        simp [findSectionFromPosition, hle, hn]
    | succ j' =>
      cases rest with
      | nil => simp at hget
      | cons next rest2 =>
        have hnn : next.start ≤ pos := hbefore 0 next (Nat.succ_pos j') (by simp)
        have hrec : findSectionFromPosition pos (x :: next :: rest2)
            = findSectionFromPosition pos (next :: rest2) := by
          by_cases h1 : x.start ≤ pos
          · simp [findSectionFromPosition, h1, not_lt.mpr hnn]
          · simp [findSectionFromPosition, h1]
        rw [hrec]
        exact ih j' h (by simpa using hget) hle
          (by intro h' hh'; exact hnext h' (by simpa using hh'))
          (by intro j'' h'' hj'' hh''
              exact hbefore (j'' + 1) h'' (by omega) (by simpa using hh''))

/-- Weakly-ascending version of `startLe_before_of_sorted` for headings. -/
lemma heading_startLe_before_of_sorted (hs : List Heading) (pos : Int) (j : Nat) (h : Heading)
    (hsorted : hs.Pairwise (fun a b => a.start ≤ b.start))
    (hget : hs[j]? = some h) (hle : h.start ≤ pos) :
    ∀ j' h'', j' < j → hs[j' + 1]? = some h'' → h''.start ≤ pos := by
  intro j' h'' hj' hget''
  rcases List.getElem?_eq_some.mp hget with ⟨hjlen, hje⟩
  rcases List.getElem?_eq_some.mp hget'' with ⟨hj1len, hj1e⟩
  by_cases heq : j' + 1 = j
  · subst heq
    have : h'' = h := by rw [← hje, ← hj1e]
    rw [this]
    exact hle
  · have hlt : j' + 1 < j := by omega
    have hrel := (List.pairwise_iff_getElem.mp hsorted) (j' + 1) j hj1len hjlen hlt
    rw [hj1e, hje] at hrel
    exact le_trans hrel hle

end Taskpane

/-! ### Structure of the extraction outputs -/

namespace Part0

/-- Every entry produced by the re-indexing loop comes from a selected
paragraph, keeping its range start. -/
lemma mem_reindex :
    ∀ (l : List ParaRecord) (n : Nat) (x : TocEntry),
      x ∈ reindex l n → ∃ p ∈ l, ∃ m, x = mkEntry p m := by
  intro l
  induction l with
  | nil => intro n x hx; simp [reindex] at hx
  | cons p rest ih =>
    intro n x hx
    rw [reindex] at hx
    rcases List.mem_cons.mp hx with h1 | h1
    · exact ⟨p, by simp, n, h1⟩
    · rcases ih (n + 1) x h1 with ⟨q, hq, m, hm⟩
      exact ⟨q, by simp [hq], m, hm⟩

/-- Re-indexing preserves the ascending-start order of its input. -/
lemma reindex_pairwise :
    ∀ (l : List ParaRecord) (n : Nat),
      l.Pairwise (fun p q => p.rangeStart ≤ q.rangeStart) →
      (reindex l n).Pairwise (fun a b => a.start ≤ b.start) := by
  intro l
  induction l with
  | nil => intro n _; simp [reindex]
  | cons p rest ih =>
    intro n hp
    rcases List.pairwise_cons.mp hp with ⟨hhead, htail⟩
    rw [reindex]
    refine List.Pairwise.cons ?_ (ih (n + 1) htail)
    intro y hy
    rcases mem_reindex rest (n + 1) y hy with ⟨q, hq, m, hm⟩
    rw [hm]
    exact hhead q hq

/-- The `index` field assigned by the re-indexing loop is the position in the
produced sequence, shifted by the starting counter. -/
lemma reindex_index :
    ∀ (l : List ParaRecord) (n j : Nat) (e : TocEntry),
      (reindex l n)[j]? = some e → e.index = n + j := by
  intro l
  induction l with
  | nil => intro n j e he; simp [reindex] at he
  | cons p rest ih =>
    intro n j e he
    rw [reindex] at he
    cases j with
    | zero =>
      simp at he
      subst he
      simp [mkEntry]
    | succ j' =>
      have := ih (n + 1) j' e (by simpa using he)
      omega

end Part0

namespace Taskpane

/-- Membership in the output of the insertion step. -/
lemma mem_insertByStart {x h : Heading} :
    ∀ {l : List Heading}, x ∈ insertByStart h l → x = h ∨ x ∈ l := by
  intro l
  induction l with
  | nil => intro hx; simpa [insertByStart] using hx
  | cons y ys ih =>
    intro hx
    by_cases hc : h.start ≤ y.start
    · rw [insertByStart, if_pos hc] at hx
      rcases List.mem_cons.mp hx with h1 | h1
      · exact Or.inl h1
      · exact Or.inr h1
    · rw [insertByStart, if_neg hc] at hx
      rcases List.mem_cons.mp hx with h1 | h1
      · exact Or.inr (by simp [h1])
      · rcases ih h1 with h2 | h2
        · exact Or.inl h2
        · exact Or.inr (by simp [h2])

/-- Inserting into a weakly-ascending list keeps it weakly ascending. -/
lemma sorted_insertByStart {h : Heading} :
    ∀ {l : List Heading}, l.Pairwise (fun a b => a.start ≤ b.start) →
      (insertByStart h l).Pairwise (fun a b => a.start ≤ b.start) := by
  intro l
  induction l with
  | nil => intro _; simp [insertByStart]
  | cons y ys ih =>
    intro hp
    rcases List.pairwise_cons.mp hp with ⟨hy, hys⟩
    by_cases hc : h.start ≤ y.start
    · rw [insertByStart, if_pos hc]
      refine List.Pairwise.cons ?_ hp
      intro z hz
      rcases List.mem_cons.mp hz with h1 | h1
      · rw [h1]; exact hc
      · exact le_trans hc (hy z h1)
    · rw [insertByStart, if_neg hc]
      refine List.Pairwise.cons ?_ (ih hys)
      intro z hz
      rcases mem_insertByStart hz with h1 | h1
      · rw [h1]; exact le_of_lt (lt_of_not_le hc)
      · exact hy z h1

/-- The sort at the end of `findHeadingsByStyle` produces a weakly-ascending
list. -/
lemma sorted_sortByStart : ∀ l : List Heading,
    (sortByStart l).Pairwise (fun a b => a.start ≤ b.start) := by
  intro l
  induction l with
  | nil => simp [sortByStart]
  | cons x xs ih => rw [sortByStart]; exact sorted_insertByStart ih

/-- Every item produced by the content-control loop comes from a control that
passes the heading condition. -/
lemma mem_ccItemsAux :
    ∀ (l : List ContentControl) (n : Nat) (it : TocItem),
      it ∈ ccItemsAux l n →
      ∃ c m, ccHeadingCond c = true ∧ it = mkCcItem c m := by
  intro l
  induction l with
  | nil => intro n it h; simp [ccItemsAux] at h
  | cons c rest ih =>
    intro n it h
    rw [ccItemsAux] at h
    by_cases hc : ccHeadingCond c = true
    · rw [if_pos hc] at h
      rcases List.mem_cons.mp h with h1 | h1
      · exact ⟨c, n, hc, h1⟩
      · exact ih (n + 1) it h1
    · rw [if_neg hc] at h
      exact ih n it h

/-- Every item produced by the paragraph loop comes from a paragraph that
passes the heading condition. -/
lemma mem_paraItemsAux :
    ∀ (l : List Paragraph) (n : Nat) (it : TocItem),
      it ∈ paraItemsAux l n →
      ∃ p m, paraHeadingCond p = true ∧ it = mkParaItem p m := by
  intro l
  induction l with
  | nil => intro n it h; simp [paraItemsAux] at h
  | cons p rest ih =>
    intro n it h
    rw [paraItemsAux] at h
    by_cases hp : paraHeadingCond p = true
    · rw [if_pos hp] at h
      rcases List.mem_cons.mp h with h1 | h1
      · exact ⟨p, n, hp, h1⟩
      · exact ih (n + 1) it h1
    · rw [if_neg hp] at h
      exact ih n it h

/-- A qualifying control in the input makes the content-control loop output
non-empty. -/
lemma ccItemsAux_ne_nil :
    ∀ (l : List ContentControl) (n : Nat),
      (∃ c ∈ l, ccHeadingCond c = true) → ccItemsAux l n ≠ [] := by
  intro l
  induction l with
  | nil => intro n h; rcases h with ⟨c, hc, _⟩; simp at hc
  | cons c rest ih =>
    intro n h
    rw [ccItemsAux]
    by_cases hc : ccHeadingCond c = true
    · rw [if_pos hc]; simp
    · rw [if_neg hc]
      rcases h with ⟨c', hc', hcond⟩
      rcases List.mem_cons.mp hc' with h1 | h1
      · rw [h1] at hcond; exact absurd hcond hc
      · exact ih n ⟨c', h1, hcond⟩

end Taskpane

/-! ### Spec-side predicates

These definitions follow the wording of the (amended) specification claims,
not the source control flow; the theorems below compare the source embeddings
against them. -/

namespace WordAddIn

/-- A usable style name in the sense of the spec: present and non-empty (JS
truthiness of `styleBuiltIn`). -/
def usableStyle (st : Option String) : Option String :=
  match st with
  | some s => if s = "" then none else some s
  | none => none

/-- Spec wording for the amended C5 level rule: with a usable style name, the
level is 0 for `Title`; otherwise the digits captured by the heading-digit
pattern; when neither style rule applies, a present outline level below 9;
otherwise 1. -/
def HeadingLevelSpec (st : Option String) (ol : Option Int) (n : Int) : Prop :=
  (usableStyle st = some "Title" ∧ n = 0) ∨
  (∃ s k, usableStyle st = some s ∧ s ≠ "Title" ∧
    headingDigits s.toList = some k ∧ n = (k : Int)) ∨
  ((∀ s, usableStyle st = some s → s ≠ "Title" ∧ headingDigits s.toList = none) ∧
    ∃ o, ol = some o ∧ o < 9 ∧ n = o) ∨
  ((∀ s, usableStyle st = some s → s ≠ "Title" ∧ headingDigits s.toList = none) ∧
    (∀ o, ol = some o → 9 ≤ o) ∧ n = 1)

/-- Spec wording for the amended C9 level rule on content controls: on the
lowercased `title + " " + tag`, a `title` occurrence gives 0; otherwise a
match of the level pattern gives the captured number when it lies strictly
between 0 and 10 and 1 otherwise; no match gives 1. -/
def ControlLevelSpec (title tag : String) (n : Nat) : Prop :=
  let text := strLower (title ++ " " ++ tag)
  (strIncludes text "title" = true ∧ n = 0) ∨
  (strIncludes text "title" = false ∧
    ∃ k, levelPatScan text.toList = some k ∧ 0 < k ∧ k < 10 ∧ n = k) ∨
  (strIncludes text "title" = false ∧
    ∃ k, levelPatScan text.toList = some k ∧ ¬(0 < k ∧ k < 10) ∧ n = 1) ∨
  (strIncludes text "title" = false ∧ levelPatScan text.toList = none ∧ n = 1)

/-- Spec wording for the amended C8 qualification of a content control:
non-empty trimmed text, and case-insensitively the title contains `heading`,
or the tag contains `heading`, or the title contains `title`. -/
def CcQualifiesSpec (c : Taskpane.ContentControl) : Prop :=
  strTrim c.text ≠ "" ∧
    (strIncludes (strLower c.title) "heading" = true ∨
      strIncludes (strLower c.tag) "heading" = true ∨
      strIncludes (strLower c.title) "title" = true)

/-- If the heading-digit pattern matches somewhere in `cs`, then `cs` contains
the literal `Heading`. -/
lemma listIncludes_of_headingDigits_some :
    ∀ (cs : List Char) (k : Nat),
      headingDigits cs = some k → listIncludes cs ("Heading".toList) = true := by
  intro cs
  induction cs with
  | nil => intro k h; simp [headingDigits] at h
  | cons c rest ih =>
    intro k h
    by_cases hp : ("Heading".toList).isPrefixOf (c :: rest) = true
    · rw [listIncludes]
      simp only [Bool.or_eq_true]
      exact Or.inl hp
    · rw [headingDigits, if_neg hp] at h
      rw [listIncludes]
      simp only [Bool.or_eq_true]
      exact Or.inr (ih k h)

end WordAddIn

/-! ### Claim theorems: the position resolver -/

/-- Claim C1: on a cache whose entries are strictly ascending by start, the
position resolver (part_000 `findCurrentSection`, and taskpane.js
`findSectionFromPosition`) returns the entry at the index `j` for which the
cursor is at or after that entry start and either `j` is last or the cursor
is strictly before the next entry start. -/
theorem c1_resolver_returns_enclosing_entry :
    (∀ (items : List Part0.TocEntry) (pos : Int) (j : Nat) (e : Part0.TocEntry),
        items.Pairwise (fun a b => a.start < b.start) →
        items[j]? = some e → e.start ≤ pos →
        (∀ e', items[j + 1]? = some e' → pos < e'.start) →
        Part0.findCurrentSection items pos =
          .found e.text e.level e.style j e.start e.endPos) ∧
    (∀ (hs : List Taskpane.Heading) (pos : Int) (j : Nat) (h : Taskpane.Heading),
        hs.Pairwise (fun a b => a.start < b.start) →
        hs[j]? = some h → h.start ≤ pos →
        (∀ h', hs[j + 1]? = some h' → pos < h'.start) →
        Taskpane.findSectionFromPosition pos hs = some h) := by
  constructor
  · intro items pos j e hsorted hget hle hnext
    have hb := Part0.startLe_before_of_sorted items pos j e
      (hsorted.imp (fun hab => le_of_lt hab)) hget hle
    have hscan := Part0.scanToc_first pos items j e 0 hget hle hnext hb
    have hne : items.length ≠ 0 := by
      rcases List.getElem?_eq_some.mp hget with ⟨hlen, _⟩
      omega
    unfold Part0.findCurrentSection
    rw [if_neg hne, hscan]
    simp
  · intro hs pos j h hsorted hget hle hnext
    have hb := Taskpane.heading_startLe_before_of_sorted hs pos j h
      (hsorted.imp (fun hab => le_of_lt hab)) hget hle
    exact Taskpane.findSectionFromPosition_first pos hs j h hget hle hnext hb

/-- Witness for C1 on the spec example starts 0, 50, 120 with cursor 119:
both resolvers return the middle entry. -/
theorem c1_witness :
    Part0.findCurrentSection
        [⟨"A", 1, "Heading1", 0, 3, 0⟩, ⟨"B", 1, "Heading1", 50, 55, 1⟩,
          ⟨"C", 1, "Heading1", 120, 125, 2⟩] 119 =
      .found "B" 1 "Heading1" 1 50 55 ∧
    Taskpane.findSectionFromPosition 119
        [⟨"A", 0, 3, "Heading1"⟩, ⟨"B", 50, 55, "Heading1"⟩,
          ⟨"C", 120, 125, "Heading1"⟩] =
      some ⟨"B", 50, 55, "Heading1"⟩ := by
  constructor
  · exact c1_resolver_returns_enclosing_entry.1 _ 119 1 ⟨"B", 1, "Heading1", 50, 55, 1⟩
      (by decide) (by decide) (by decide)
      (by intro e' he'; simp at he'; subst he'; decide)
  · exact c1_resolver_returns_enclosing_entry.2 _ 119 1 ⟨"B", 50, 55, "Heading1"⟩
      (by decide) (by decide) (by decide)
      (by intro h' hh'; simp at hh'; subst hh'; decide)

/-- Claim C10: a non-sentinel resolver result points at an index inside the
cache, copies that entry verbatim, and that entry starts at or before the
cursor. -/
theorem c10_found_is_cached_entry :
    ∀ (items : List Part0.TocEntry) (pos : Int) (t : String) (l : Int)
      (s : String) (i : Nat) (st en : Int),
      Part0.findCurrentSection items pos = .found t l s i st en →
      i < items.length ∧ ∃ e, items[i]? = some e ∧ e.text = t ∧ e.level = l ∧
        e.style = s ∧ e.start = st ∧ e.endPos = en ∧ e.start ≤ pos := by
  intro items pos t l s i st en h
  unfold Part0.findCurrentSection at h
  by_cases hlen : items.length = 0
  · rw [if_pos hlen] at h
    simp at h
  · rw [if_neg hlen] at h
    cases hscan : Part0.scanToc pos items 0 with
    | none => rw [hscan] at h; simp at h
    | some pr =>
      obtain ⟨r, item⟩ := pr
      rw [hscan] at h
      simp only [Part0.SectionResult.found.injEq] at h
      obtain ⟨ht, hl, hs, hi, hst, hen⟩ := h
      obtain ⟨j, hj, hget, hle, _⟩ := Part0.scanToc_sound pos items 0 r item hscan
      have hij : i = j := by omega
      subst hij
      rcases List.getElem?_eq_some.mp hget with ⟨hjlen, _⟩
      exact ⟨hjlen, item, hget, ht, hl, hs, hst, hen, hle⟩

/-- Witness for C10 at a one-entry cache and cursor 5. -/
theorem c10_witness :
    0 < ([⟨"A", 1, "sA", 0, 3, 0⟩] : List Part0.TocEntry).length ∧
      ∃ e, ([⟨"A", 1, "sA", 0, 3, 0⟩] : List Part0.TocEntry)[0]? = some e ∧
        e.text = "A" ∧ e.level = 1 ∧ e.style = "sA" ∧ e.start = 0 ∧
        e.endPos = 3 ∧ e.start ≤ 5 :=
  c10_found_is_cached_entry [⟨"A", 1, "sA", 0, 3, 0⟩] 5 "A" 1 "sA" 0 0 3 (by decide)

/-- Counterexample for C3 as stated: entries 0 and 1 share start 0, the
cursor 5 lies in their shared section, and the resolver returns the entry
with the LATER sequence index 1, not the earlier index 0. -/
theorem c3_counterexample :
    Part0.findCurrentSection
        [⟨"A", 1, "sA", 0, 3, 0⟩, ⟨"B", 1, "sB", 0, 3, 1⟩] 5 =
      .found "B" 1 "sB" 1 0 3 ∧
    Part0.findCurrentSection
        [⟨"A", 1, "sA", 0, 3, 0⟩, ⟨"B", 1, "sB", 0, 3, 1⟩] 5 ≠
      .found "A" 1 "sA" 0 0 3 :=
  ⟨by decide, by decide⟩

/-- Claim C3 (amended): with identical adjacent starts the LATER sequence
index wins; the resolver can never stop at an entry whose immediate successor
shares its start. -/
theorem c3_duplicate_start_later_wins :
    ∀ (items : List Part0.TocEntry) (pos : Int) (i : Nat) (e e' : Part0.TocEntry),
      items[i]? = some e → items[i + 1]? = some e' → e.start = e'.start →
      ∀ (t : String) (l : Int) (s : String) (st en : Int),
        Part0.findCurrentSection items pos ≠ .found t l s i st en := by
  intro items pos i e e' hget hget1 hstart t l s st en hfound
  unfold Part0.findCurrentSection at hfound
  by_cases hlen : items.length = 0
  · rw [if_pos hlen] at hfound
    simp at hfound
  · rw [if_neg hlen] at hfound
    cases hscan : Part0.scanToc pos items 0 with
    | none => rw [hscan] at hfound; simp at hfound
    | some pr =>
      obtain ⟨r, item⟩ := pr
      rw [hscan] at hfound
      simp only [Part0.SectionResult.found.injEq] at hfound
      obtain ⟨_, _, _, hi, _, _⟩ := hfound
      obtain ⟨j, hj, hgetj, hle, hnext⟩ := Part0.scanToc_sound pos items 0 r item hscan
      have hji : j = i := by omega
      subst hji
      have hee : item = e := by
        rw [hget] at hgetj
        injection hgetj with hv
        exact hv.symm
      have hlt := hnext e' hget1
      rw [← hstart] at hlt
      rw [hee] at hle
      exact absurd hle (not_le.mpr hlt)

/-- Witness for the amended C3 at a concrete duplicate-start cache. -/
theorem c3_witness :
    Part0.findCurrentSection
        [⟨"X", 2, "sX", 7, 9, 0⟩, ⟨"Y", 2, "sY", 7, 9, 1⟩] 8 ≠
      .found "X" 2 "sX" 0 7 9 :=
  c3_duplicate_start_later_wins _ 8 0 ⟨"X", 2, "sX", 7, 9, 0⟩ ⟨"Y", 2, "sY", 7, 9, 1⟩
    (by decide) (by decide) (by decide) "X" 2 "sX" 7 9

/-- Counterexample for C4 as stated: on the empty cache the resolver does not
return the before-first-section sentinel; it returns the distinct
no-TOC-available sentinel. -/
theorem c4_counterexample :
    Part0.findCurrentSection [] 0 ≠ Part0.SectionResult.beforeFirst ∧
    Part0.findCurrentSection [] 0 = Part0.SectionResult.noToc :=
  ⟨by decide, by decide⟩

/-- Claim C4 (amended): the resolver never faults on these inputs and returns
a sentinel, never an entry: the no-TOC sentinel on an empty cache, and the
before-first sentinel when the cursor precedes the first start of a weakly
ascending cache. -/
theorem c4_sentinel_cases :
    (∀ pos : Int, Part0.findCurrentSection [] pos = .noToc) ∧
    (∀ (items : List Part0.TocEntry) (pos : Int) (e : Part0.TocEntry),
        items.Pairwise (fun a b => a.start ≤ b.start) →
        items[0]? = some e → pos < e.start →
        Part0.findCurrentSection items pos = .beforeFirst) := by
  constructor
  · intro pos
    rfl
  · intro items pos e hsorted hget hlt
    have hall : ∀ x ∈ items, pos < x.start := by
      intro x hx
      cases items with
      | nil => simp at hx
      | cons y ys =>
        simp at hget
        subst hget
        rcases List.pairwise_cons.mp hsorted with ⟨hhead, _⟩
        rcases List.mem_cons.mp hx with h1 | h1
        · rw [h1]; exact hlt
        · exact lt_of_lt_of_le hlt (hhead x h1)
    have hnone := Part0.scanToc_none pos items 0 hall
    have hlen : items.length ≠ 0 := by
      rcases List.getElem?_eq_some.mp hget with ⟨hl, _⟩
      omega
    unfold Part0.findCurrentSection
    rw [if_neg hlen, hnone]

/-- Witness for the amended C4: both sentinel cases at concrete inputs. -/
theorem c4_witness :
    Part0.findCurrentSection [] 3 = Part0.SectionResult.noToc ∧
    Part0.findCurrentSection [⟨"A", 1, "sA", 10, 12, 0⟩] 5 =
      Part0.SectionResult.beforeFirst :=
  ⟨c4_sentinel_cases.1 3,
   c4_sentinel_cases.2 [⟨"A", 1, "sA", 10, 12, 0⟩] 5 ⟨"A", 1, "sA", 10, 12, 0⟩
     (by decide) (by decide) (by decide)⟩

/-! ### Claim theorems: the heading extraction -/

/-- Claim C2: a part_000 extraction from a snapshot whose range starts are in
ascending document order is ascending by start and carries `index` equal to
the position in the produced sequence; a `findHeadingsByStyle` result is
ascending by start for every input (it is explicitly sorted). -/
theorem c2_sorted_and_indexed :
    (∀ paras : List Part0.ParaRecord,
        paras.Pairwise (fun p q => p.rangeStart ≤ q.rangeStart) →
        (Part0.getTableOfContents paras).Pairwise (fun a b => a.start ≤ b.start)) ∧
    (∀ (paras : List Part0.ParaRecord) (j : Nat) (e : Part0.TocEntry),
        (Part0.getTableOfContents paras)[j]? = some e → e.index = j) ∧
    (∀ (style : String) (paras : List Taskpane.StylePara),
        (Taskpane.findHeadingsByStyle style paras).Pairwise
          (fun a b => a.start ≤ b.start)) := by
  refine ⟨?_, ?_, ?_⟩
  · intro paras hp
    have hsel : (Part0.selected paras).Pairwise
        (fun p q => p.rangeStart ≤ q.rangeStart) := by
      unfold Part0.selected
      exact hp.filter _
    unfold Part0.getTableOfContents
    exact Part0.reindex_pairwise _ 0 hsel
  · intro paras j e he
    have := Part0.reindex_index (Part0.selected paras) 0 j e he
    omega
  · intro style paras
    unfold Taskpane.findHeadingsByStyle
    exact Taskpane.sorted_sortByStart _

/-- Witness for C2 on a concrete two-paragraph snapshot in document order. -/
theorem c2_witness :
    (Part0.getTableOfContents
        [⟨"A", some "Heading1", none, 0, 3⟩,
          ⟨"B", some "Heading2", none, 50, 55⟩]).Pairwise
      (fun a b => a.start ≤ b.start) :=
  c2_sorted_and_indexed.1 _ (by decide)

/-- Counterexample for C5 as stated: the part_000 level helper gives 1 (not 3)
for the style `Heading 3` (the digit pattern requires the digits to follow
`Heading` immediately), and gives the outline level 5 (not the claimed
default 1) for the bare style `Heading` when an outline level is present. -/
theorem c5_counterexample :
    Part0.getHeadingLevel (some "Heading 3") none = 1 ∧
    Part0.getHeadingLevel (some "Heading") (some 5) = 5 :=
  ⟨by decide, by decide⟩

/-- Helper for C5: the trailing outline-level fallback of `getHeadingLevel`
satisfies the spec relation whenever the style rules produced nothing. -/
lemma outline_fallback_spec (st : Option String) (ol : Option Int)
    (hsty : ∀ s, WordAddIn.usableStyle st = some s →
        s ≠ "Title" ∧ WordAddIn.headingDigits s.toList = none) :
    WordAddIn.HeadingLevelSpec st ol (Part0.outlineFallback ol) := by
  unfold WordAddIn.HeadingLevelSpec
  cases ol with
  | none =>
    right; right; right
    refine ⟨hsty, ?_, rfl⟩
    intro o ho
    simp at ho
  | some o =>
    by_cases ho : o < 9
    · right; right; left
      refine ⟨hsty, o, rfl, ho, ?_⟩
      simp [Part0.outlineFallback, ho]
    · right; right; right
      refine ⟨hsty, ?_, ?_⟩
      · intro o' ho'
        injection ho' with hh
        omega
      · simp [Part0.outlineFallback, ho]

/-- Claim C5 (amended): the part_000 level helper follows the first-match
order: usable style `Title` gives 0; else digits immediately following
`Heading` give the parsed group; else (also when the style contains `Heading`
with no adjacent digits) a present outline level below 9 is used; else 1. -/
theorem c5_level_rule_first_match :
    ∀ (st : Option String) (ol : Option Int),
      WordAddIn.HeadingLevelSpec st ol (Part0.getHeadingLevel st ol) := by
  intro st ol
  rcases st with _ | s
  · exact outline_fallback_spec none ol (by intro s hs; simp [WordAddIn.usableStyle] at hs)
  · by_cases hempty : s = ""
    · subst hempty
      refine outline_fallback_spec (some "") ol ?_
      intro s hs
      simp [WordAddIn.usableStyle] at hs
    · by_cases htitle : s = "Title"
      · subst htitle
        have hsty : Part0.styleLevel (some "Title") = some 0 := by decide
        have hval : Part0.getHeadingLevel (some "Title") ol = 0 := by
          unfold Part0.getHeadingLevel
          rw [hsty]
        rw [hval]
        unfold WordAddIn.HeadingLevelSpec
        left
        exact ⟨by decide, rfl⟩
      · cases hd : WordAddIn.headingDigits s.toList with
        | some k =>
          have hinc : WordAddIn.strIncludes s "Heading" = true :=
            WordAddIn.listIncludes_of_headingDigits_some s.toList k hd
          have hsty : Part0.styleLevel (some s) = some (k : Int) := by
            simp only [Part0.styleLevel]
            rw [if_neg hempty, if_neg htitle, if_pos hinc, hd]
          have hval : Part0.getHeadingLevel (some s) ol = (k : Int) := by
            unfold Part0.getHeadingLevel
            rw [hsty]
          rw [hval]
          unfold WordAddIn.HeadingLevelSpec
          right; left
          refine ⟨s, k, ?_, htitle, hd, rfl⟩
          simp only [WordAddIn.usableStyle]
          rw [if_neg hempty]
        | none =>
          have hsty : Part0.styleLevel (some s) = none := by
            simp only [Part0.styleLevel]
            rw [if_neg hempty, if_neg htitle]
            by_cases hinc : WordAddIn.strIncludes s "Heading" = true
            · rw [if_pos hinc, hd]
            · rw [if_neg hinc]
          have hval : Part0.getHeadingLevel (some s) ol = Part0.outlineFallback ol := by
            unfold Part0.getHeadingLevel
            rw [hsty]
          rw [hval]
          refine outline_fallback_spec (some s) ol ?_
          intro s' hs'
          simp only [WordAddIn.usableStyle] at hs'
          rw [if_neg hempty] at hs'
          injection hs' with hss
          subst hss
          exact ⟨htitle, hd⟩

/-- A content control with 350 characters of text and a heading title: used to
refute the C6 length claim for the content-control strategy. -/
def longA : String := String.mk (List.replicate 350 'a')

set_option maxRecDepth 100000 in
/-- Counterexample for C6 as stated: a content control whose trimmed text has
length 350 (beyond any 200 to 300 display threshold) still becomes an entry,
because only the paragraph strategy applies a length ceiling. -/
theorem c6_counterexample :
    Taskpane.getTableOfContents [⟨longA, "heading", ""⟩] [] =
      [⟨longA, 1, "heading", 0, "contentControl"⟩] ∧ 300 < longA.length :=
  ⟨by decide, by decide⟩

/-- Claim C6 (amended): every produced entry has non-empty trimmed text, and
every paragraph-strategy entry additionally has text length below 200; the
content-control strategy applies no length ceiling. -/
theorem c6_text_constraints :
    ∀ (controls : List Taskpane.ContentControl) (paragraphs : List Taskpane.Paragraph)
      (it : Taskpane.TocItem),
      it ∈ Taskpane.getTableOfContents controls paragraphs →
      it.text ≠ "" ∧ (it.type = "paragraph" → it.text.length < 200) := by
  intro controls paragraphs it hmem
  unfold Taskpane.getTableOfContents at hmem
  by_cases hcc : (Taskpane.ccItemsAux controls 0).isEmpty = true
  · rw [if_pos hcc] at hmem
    rcases Taskpane.mem_paraItemsAux _ _ _ hmem with ⟨p, m, hcond, hit⟩
    unfold Taskpane.paraHeadingCond at hcond
    simp only [Bool.and_eq_true, bne_iff_ne, ne_eq, decide_eq_true_eq,
      Bool.or_eq_true] at hcond
    obtain ⟨⟨hne, hlt⟩, _⟩ := hcond
    subst hit
    exact ⟨hne, fun _ => hlt⟩
  · rw [if_neg hcc] at hmem
    rcases Taskpane.mem_ccItemsAux _ _ _ hmem with ⟨c, m, hcond, hit⟩
    unfold Taskpane.ccHeadingCond at hcond
    simp only [Bool.and_eq_true, bne_iff_ne, ne_eq] at hcond
    obtain ⟨hne, _⟩ := hcond
    subst hit
    refine ⟨hne, ?_⟩
    intro htype
    simp [Taskpane.mkCcItem] at htype

/-- Witness for the amended C6 at a concrete qualifying content control. -/
theorem c6_witness :
    (⟨"Intro", 1, "heading", 0, "contentControl"⟩ : Taskpane.TocItem).text ≠ "" ∧
      ((⟨"Intro", 1, "heading", 0, "contentControl"⟩ : Taskpane.TocItem).type =
          "paragraph" →
        (⟨"Intro", 1, "heading", 0, "contentControl"⟩ :
            Taskpane.TocItem).text.length < 200) :=
  c6_text_constraints [⟨"Intro", "heading", ""⟩] [] _ (by decide)

/-- Claim C7: when any content control qualifies, the produced sequence is
exactly the content-control result (all entries of content-control origin,
whatever paragraphs are present); the paragraph scan is used exactly when the
content-control pass produces zero entries. -/
theorem c7_strategy_precedence :
    (∀ (controls : List Taskpane.ContentControl) (paragraphs : List Taskpane.Paragraph),
        (∃ c ∈ controls, Taskpane.ccHeadingCond c = true) →
        Taskpane.getTableOfContents controls paragraphs =
          Taskpane.ccItemsAux controls 0 ∧
        ∀ it ∈ Taskpane.getTableOfContents controls paragraphs,
          it.type = "contentControl") ∧
    (∀ (controls : List Taskpane.ContentControl) (paragraphs : List Taskpane.Paragraph),
        Taskpane.ccItemsAux controls 0 = [] →
        Taskpane.getTableOfContents controls paragraphs =
          Taskpane.paraItemsAux paragraphs 0) := by
  constructor
  · intro controls paragraphs hex
    have hne := Taskpane.ccItemsAux_ne_nil controls 0 hex
    have heq : Taskpane.getTableOfContents controls paragraphs
        = Taskpane.ccItemsAux controls 0 := by
      simp only [Taskpane.getTableOfContents]
      rw [if_neg (by simpa using hne)]
    refine ⟨heq, ?_⟩
    intro it hit
    rw [heq] at hit
    rcases Taskpane.mem_ccItemsAux _ _ _ hit with ⟨c, m, _, hitem⟩
    rw [hitem]
    rfl
  · intro controls paragraphs hnil
    simp only [Taskpane.getTableOfContents]
    rw [hnil]
    rfl

/-- Witness for C7 at a snapshot holding both a qualifying content control and
a qualifying paragraph. -/
theorem c7_witness :
    Taskpane.getTableOfContents [⟨"Intro", "heading", ""⟩] [⟨"Chapter", "Heading1"⟩] =
      Taskpane.ccItemsAux [⟨"Intro", "heading", ""⟩] 0 ∧
    (⟨"Intro", 1, "heading", 0, "contentControl"⟩ : Taskpane.TocItem).type =
      "contentControl" :=
  ⟨(c7_strategy_precedence.1 [⟨"Intro", "heading", ""⟩] [⟨"Chapter", "Heading1"⟩]
      ⟨⟨"Intro", "heading", ""⟩, by decide, by decide⟩).1,
   (c7_strategy_precedence.1 [⟨"Intro", "heading", ""⟩] [⟨"Chapter", "Heading1"⟩]
      ⟨⟨"Intro", "heading", ""⟩, by decide, by decide⟩).2 _ (by decide)⟩

/-- Counterexample for C8 as stated: a control tagged `section`, and one
tagged `Title`, with non-empty text, do NOT qualify (the code never checks
`section`, and checks `title` only in the title field), so extraction from
each of them alone is empty. -/
theorem c8_counterexample :
    Taskpane.getTableOfContents [⟨"Intro", "", "section"⟩] [] = [] ∧
    Taskpane.getTableOfContents [⟨"Intro", "", "Title"⟩] [] = [] :=
  ⟨by decide, by decide⟩

/-- Claim C8 (amended): a content control yields an entry exactly when its
trimmed text is non-empty and, case-insensitively, its title contains
`heading`, its tag contains `heading`, or its title contains `title`. -/
theorem c8_cc_qualification :
    ∀ c : Taskpane.ContentControl,
      Taskpane.getTableOfContents [c] [] ≠ [] ↔ WordAddIn.CcQualifiesSpec c := by
  intro c
  by_cases hc : Taskpane.ccHeadingCond c = true
  · have hval : Taskpane.getTableOfContents [c] [] = [Taskpane.mkCcItem c 0] := by
      simp only [Taskpane.getTableOfContents, Taskpane.ccItemsAux]
      rw [if_pos hc]
      rfl
    rw [hval]
    unfold Taskpane.ccHeadingCond at hc
    simp only [Bool.and_eq_true, bne_iff_ne, ne_eq, Bool.or_eq_true] at hc
    constructor
    · intro _
      exact ⟨hc.1, or_assoc.mp hc.2⟩
    · intro _
      simp
  · have hval : Taskpane.getTableOfContents [c] [] = [] := by
      simp only [Taskpane.getTableOfContents, Taskpane.ccItemsAux]
      rw [if_neg hc]
      rfl
    rw [hval]
    constructor
    · intro h
      exact absurd rfl h
    · intro hspec
      exfalso
      apply hc
      unfold Taskpane.ccHeadingCond
      simp only [Bool.and_eq_true, bne_iff_ne, ne_eq, Bool.or_eq_true]
      exact ⟨hspec.1, or_assoc.mpr hspec.2⟩

/-- Counterexample for C9 as stated: a qualifying control titled `Title 2`
gets level 0 (the claim omits the title-gives-0 rule and predicts 1), and one
titled `heading 12` gets the default 1, not a clamp to 9. -/
theorem c9_counterexample :
    Taskpane.extractLevelFromControl "Title 2" "" = 0 ∧
    Taskpane.extractLevelFromControl "heading 12" "" = 1 :=
  ⟨by decide, by decide⟩

/-- Claim C9 (amended): on the lowercased combined title and tag, a `title`
occurrence gives level 0; otherwise a pattern match gives the captured number
when it lies strictly between 0 and 10 and the default 1 otherwise (no
clamping); no match gives 1. -/
theorem c9_control_level_rule :
    ∀ (title tag : String),
      WordAddIn.ControlLevelSpec title tag
        (Taskpane.extractLevelFromControl title tag) := by
  intro title tag
  by_cases ht :
      WordAddIn.strIncludes (WordAddIn.strLower (title ++ " " ++ tag)) "title" = true
  · have hval : Taskpane.extractLevelFromControl title tag = 0 := by
      simp only [Taskpane.extractLevelFromControl]
      rw [if_pos ht]
    rw [hval]
    unfold WordAddIn.ControlLevelSpec
    left
    exact ⟨ht, rfl⟩
  · have ht' :
        WordAddIn.strIncludes (WordAddIn.strLower (title ++ " " ++ tag)) "title"
          = false := by
      simpa using ht
    cases hscan :
        WordAddIn.levelPatScan (WordAddIn.strLower (title ++ " " ++ tag)).toList with
    | none =>
      have hval : Taskpane.extractLevelFromControl title tag = 1 := by
        simp only [Taskpane.extractLevelFromControl]
        rw [if_neg ht, hscan]
      rw [hval]
      unfold WordAddIn.ControlLevelSpec
      right; right; right
      exact ⟨ht', hscan, rfl⟩
    | some k =>
      by_cases hrange : 0 < k ∧ k < 10
      · have hval : Taskpane.extractLevelFromControl title tag = k := by
          simp only [Taskpane.extractLevelFromControl]
          rw [if_neg ht, hscan]
          show (if 0 < k ∧ k < 10 then k else 1) = k
          rw [if_pos hrange]
        rw [hval]
        unfold WordAddIn.ControlLevelSpec
        right; left
        exact ⟨ht', k, hscan, hrange.1, hrange.2, rfl⟩
      · have hval : Taskpane.extractLevelFromControl title tag = 1 := by
          simp only [Taskpane.extractLevelFromControl]
          rw [if_neg ht, hscan]
          show (if 0 < k ∧ k < 10 then k else 1) = 1
          rw [if_neg hrange]
        rw [hval]
        unfold WordAddIn.ControlLevelSpec
        right; right; left
        exact ⟨ht', k, hscan, hrange, rfl⟩

